import Mathlib

/-!
Shallow embedding of the pprofetheus CPU-profile collector
(`pprofetheus.go`), covering the symbol-resolution function
`mapLocations`, the sample-aggregation loop inside `Collect`, and the
`Start`/`Stop`/`Collect` lifecycle of `cpuProfileCollector`.

Modelling conventions:
* Go `uint64` values (addresses, sizes, location IDs) are `Nat`; the one
  place where Go addition can wrap (`s.Addr + uint64(s.Size)`) carries an
  explicit `% 2^64`.
* Go `int64` sample values are `Int`; the float64 counter arithmetic
  (`float64(v) / 1000000` and counter accumulation) is modelled exactly
  over `ℚ`.
* Prometheus counters (`CounterVec` keyed by the `function` label, plain
  `Counter` for started/stopped) are total maps `String → ℚ` resp. `Nat`,
  zero-initialised, which matches `WithLabelValues(..).Add` creating a
  zero child on first use.  `Counter.Add` aborts (Go panic) on a negative
  increment; this is modelled by an `Except` result carrying the state at
  the abort point.
* The external collaborators (runtime sample buffer drain and
  `profile.Parse`) are modelled by passing the parse outcome — either a
  decoded profile or a decode error — as an input to the scrape;
  `panic(err)` in `Collect` is the `Except.error` outcome, again carrying
  the state at the abort point.
* The process-wide CPU profile rate set via `runtime.SetCPUProfileRate`
  is a field `rate` of the collector state.
-/

namespace Pprofetheus

/-- `cpuProfileRate`: the fixed sampling frequency constant. -/
def cpuProfileRate : Nat := 100

/-- `nanoToMilliDivisor`: divisor turning nanoseconds into milliseconds. -/
def nanoToMilliDivisor : Nat := 1000000

/-- `objfile.Sym`: one symbol-table record (`Name`, `Addr`, `Size`). -/
structure Sym where
  name : String
  addr : Nat
  size : Nat
deriving DecidableEq, Repr

/-- `profile.Location`: a program-counter address with a numeric ID. -/
structure Location where
  id : Nat
  address : Nat
deriving DecidableEq, Repr

/-- `profile.Sample`: a stack of locations (leaf first) plus a value vector. -/
structure Sample where
  location : List Location
  value : List Int
deriving DecidableEq, Repr

/-- `profile.Profile`: the decoded profile, restricted to the fields
`Collect` reads (`p.Location` and `p.Sample`). -/
structure Profile where
  location : List Location
  sample : List Sample
deriving DecidableEq, Repr

/-- The range test of the inner loop of `mapLocations`:
`l.Address >= s.Addr && l.Address <= s.Addr+uint64(s.Size)`, with the
Go `uint64` addition wrapping modulo `2^64`. -/
def symContains (s : Sym) (a : Nat) : Bool :=
  decide (s.addr ≤ a) && decide (a ≤ (s.addr + s.size) % 2 ^ 64)

/-- The inner loop of `mapLocations` over one location's address: scan the
symbols in order, return the first whose range contains the address
(`break`), or nothing if none matches. -/
def resolveSym (a : Nat) : List Sym → Option String
  | [] => none
  | s :: rest => if symContains s a then some s.name else resolveSym a rest

/-- Insertion into the `map[uint64]string` result: overwrite the entry if
the key is present, otherwise append. -/
def mapInsert : List (Nat × String) → Nat → String → List (Nat × String)
  | [], k, v => [(k, v)]
  | (k', v') :: rest, k, v =>
      if k' = k then (k, v) :: rest else (k', v') :: mapInsert rest k v

/-- Go map lookup returning an `Option` (presence of the key). -/
def mapLookup : List (Nat × String) → Nat → Option String
  | [], _ => none
  | (k', v') :: rest, k => if k' = k then some v' else mapLookup rest k

/-- Go map indexing `m[k]` for a `map[uint64]string`: the zero value `""`
is returned when the key is absent. -/
def lookupOrEmpty (m : List (Nat × String)) (k : Nat) : String :=
  (mapLookup m k).getD ""

/-- `mapLocations`: for each location, record the name of the first
symbol whose range contains its address; locations matching no symbol get
no entry. -/
def mapLocations (locations : List Location) (symbols : List Sym) :
    List (Nat × String) :=
  locations.foldl
    (fun result l =>
      match resolveSym l.address symbols with
      | some name => mapInsert result l.id name
      | none => result)
    []

/-- A family of Prometheus counters keyed by the `function` label. -/
abbrev Counters := String → ℚ

/-- Adding to one child of a `CounterVec` (the non-aborting part of
`Add`). -/
def addCounter (m : Counters) (k : String) (v : ℚ) : Counters :=
  fun n => if n = k then m n + v else m n

/-- Body of the sample loop in `Collect` for one sample `s`: skip the
sample if its stack is empty or it has fewer than 2 values; otherwise add
`float64(s.Value[1]) / nanoToMilliDivisor` to `timeUsed` at the leaf
frame's resolved name and to `timeUsedCum` at every frame's resolved
name.  `prometheus.Counter.Add` aborts on a negative increment, modelled
by `Except.error` carrying the counters at the abort point (the first
`Add` of the sample is the one that aborts, so the sample's counters are
untouched). -/
def processSample (res : List (Nat × String)) (tu tc : Counters)
    (s : Sample) : Except (Counters × Counters) (Counters × Counters) :=
  match s.location with
  | [] => .ok (tu, tc)
  | l0 :: _ =>
    if s.value.length < 2 then .ok (tu, tc)
    else
      let amt : ℚ := ((s.value.getD 1 0 : Int) : ℚ) / (nanoToMilliDivisor : ℚ)
      if amt < 0 then .error (tu, tc)
      else
        let tu' := addCounter tu (lookupOrEmpty res l0.id) amt
        let tc' := s.location.foldl
          (fun acc l => addCounter acc (lookupOrEmpty res l.id) amt) tc
        .ok (tu', tc')

/-- The sample loop of `Collect` over the whole sample list, propagating
an abort. -/
def foldSamples (res : List (Nat × String)) (tu tc : Counters) :
    List Sample → Except (Counters × Counters) (Counters × Counters)
  | [] => .ok (tu, tc)
  | s :: rest =>
    match processSample res tu tc s with
    | .ok (tu', tc') => foldSamples res tu' tc' rest
    | .error e => .error e

/-- The state of a `cpuProfileCollector`, together with the process-wide
CPU profile rate it manipulates through `runtime.SetCPUProfileRate`. -/
structure CollectorState where
  timeUsed : Counters
  timeUsedCum : Counters
  started : Nat
  stopped : Nat
  running : Bool
  rate : Nat
  symbols : List Sym

/-- One metric family emitted on the channel during `Collect`. -/
inductive MetricFamily where
  | timeUsed (m : Counters)
  | timeUsedCum (m : Counters)
  | started (n : Nat)
  | stopped (n : Nat)

/-- The four `Collect(ch)` emissions at the end of `Collect`, in source
order. -/
def publish (c : CollectorState) : List MetricFamily :=
  [.timeUsed c.timeUsed, .timeUsedCum c.timeUsedCum,
   .started c.started, .stopped c.stopped]

/-- `Start`: no-op when running; otherwise set `running`, set the rate to
`cpuProfileRate`, and increment `started`. -/
def start (c : CollectorState) : CollectorState :=
  if c.running then c
  else { c with running := true, rate := cpuProfileRate,
                started := c.started + 1 }

/-- `Stop`: no-op when stopped; otherwise clear `running`, set the rate
to `0`, and increment `stopped`. -/
def stop (c : CollectorState) : CollectorState :=
  if c.running then
    { c with running := false, rate := 0, stopped := c.stopped + 1 }
  else c

/-- `Collect`: when running, pause sampling (rate 0), drain and parse the
buffer (`parseResult` is the outcome of `profile.Parse` on the drained
bytes), abort on a parse error (`panic(err)`), otherwise resolve
locations, fold the samples into the counters, publish, and restore the
rate; when stopped, just publish.  `Except.error` carries the collector
state at the abort point. -/
def collect (c : CollectorState) (parseResult : Except Unit Profile) :
    Except CollectorState (CollectorState × List MetricFamily) :=
  if c.running then
    let c1 := { c with rate := 0 }
    match parseResult with
    | .error _ => .error c1
    | .ok p =>
      let locations := mapLocations p.location c.symbols
      match foldSamples locations c1.timeUsed c1.timeUsedCum p.sample with
      | .error (tu, tc) =>
          .error { c1 with timeUsed := tu, timeUsedCum := tc }
      | .ok (tu, tc) =>
          let c2 := { c1 with timeUsed := tu, timeUsedCum := tc }
          .ok ({ c2 with rate := cpuProfileRate }, publish c2)
  else
    .ok (c, publish c)

/-- One externally initiated operation on the collector. -/
inductive Op where
  | start
  | stop
  | scrape (parseResult : Except Unit Profile)

/-- The collector state after one operation; for an aborted scrape this
is the state at the abort point. -/
def applyOp (c : CollectorState) : Op → CollectorState
  | .start => start c
  | .stop => stop c
  | .scrape pr =>
    match collect c pr with
    | .ok (c', _) => c'
    | .error c' => c'

/-- The collector returned by `NewCPUProfileCollector`: zeroed counters,
not running; `rate` is the ambient process rate, `0` unless profiling was
already on. -/
def newCollector (symbols : List Sym) : CollectorState :=
  { timeUsed := fun _ => 0, timeUsedCum := fun _ => 0,
    started := 0, stopped := 0, running := false, rate := 0,
    symbols := symbols }

/-! ### Specification-side definitions

These restate the aggregation rule in the spec's vocabulary, to be
compared with the fold above. -/

/-- A sample the spec's aggregation rule processes: non-empty stack and
at least 2 values. -/
def sampleValid (s : Sample) : Bool :=
  !s.location.isEmpty && decide (2 ≤ s.value.length)

/-- The millisecond amount of one sample: `values[1] / 1,000,000`. -/
def sampleAmt (s : Sample) : ℚ :=
  ((s.value.getD 1 0 : Int) : ℚ) / (nanoToMilliDivisor : ℚ)

/-- The self-time contribution of one sample to the counter of function
`f`: its amount when the sample is valid and its leaf frame resolves to
`f`, else `0`. -/
def selfContrib (res : List (Nat × String)) (f : String) (s : Sample) : ℚ :=
  match s.location with
  | [] => 0
  | l0 :: _ =>
    if sampleValid s ∧ lookupOrEmpty res l0.id = f then sampleAmt s else 0

/-- The cumulative-time contribution of one sample to the counter of
function `f`: its amount once per frame resolving to `f`, when valid. -/
def cumContrib (res : List (Nat × String)) (f : String) (s : Sample) : ℚ :=
  if sampleValid s then
    (s.location.countP (fun l => lookupOrEmpty res l.id == f) : ℚ) *
      sampleAmt s
  else 0

/-- The rate/state consistency relation of the lifecycle design. -/
def rateConsistent (c : CollectorState) : Prop :=
  (c.running = true → c.rate = cpuProfileRate) ∧
  (c.running = false → c.rate = 0)

/-- The loop body of `mapLocations`, named for the lemmas below. -/
def locStep (symbols : List Sym) (result : List (Nat × String))
    (l : Location) : List (Nat × String) :=
  match resolveSym l.address symbols with
  | some name => mapInsert result l.id name
  | none => result

/-- The counters carried by either outcome of the sample fold (the `ok`
result, or the state at the abort point). -/
def exceptCounters :
    Except (Counters × Counters) (Counters × Counters) →
      Counters × Counters
  | .ok x => x
  | .error x => x

/-! ### Concrete states used by witnesses -/

/-- A one-symbol table: function `"f"` covering `[100, 150]`. -/
def someSymbols : List Sym := [⟨"f", 100, 50⟩]

/-- A freshly constructed, stopped collector over `someSymbols`. -/
def cStopped : CollectorState := newCollector someSymbols

/-- The collector after one `Start`: running, rate `cpuProfileRate`. -/
def cRunning : CollectorState := start (newCollector someSymbols)

/-- The spec's in-range scenario: one sample at address `120`, values
`[1, 1000000000]`. -/
def pSpec : Profile :=
  ⟨[⟨1, 120⟩], [⟨[⟨1, 120⟩], [1, 1000000000]⟩]⟩

/-- The spec's out-of-range scenario: one sample at address `500`,
values `[1, 500000000]`. -/
def pUnknown : Profile :=
  ⟨[⟨1, 500⟩], [⟨[⟨1, 500⟩], [1, 500000000]⟩]⟩

/-! ### Lemmas about the resolution map -/

theorem mapLocations_eq_foldl (locs : List Location) (syms : List Sym) :
    mapLocations locs syms = locs.foldl (locStep syms) [] := rfl

theorem mapLookup_mapInsert (m : List (Nat × String)) (k : Nat) (v : String)
    (k' : Nat) :
    mapLookup (mapInsert m k v) k' =
      if k' = k then some v else mapLookup m k' := by
  induction m with
  | nil => simp [mapInsert, mapLookup, eq_comm]
  | cons kv rest ih =>
    rcases kv with ⟨k0, v0⟩
    by_cases h0 : k0 = k
    · subst h0
      by_cases h1 : k' = k0
      · simp [mapInsert, mapLookup, h1]
      · simp [mapInsert, mapLookup, h1, Ne.symm h1]
    · by_cases h1 : k' = k0
      · subst h1
        simp [mapInsert, mapLookup, h0, Ne.symm h0]
      · simp [mapInsert, mapLookup, h0, h1, Ne.symm h1, ih]

theorem mapLookup_foldl_of_notMem (syms : List Sym) (locs : List Location)
    (m : List (Nat × String)) (k : Nat) (hk : ∀ l ∈ locs, l.id ≠ k) :
    mapLookup (locs.foldl (locStep syms) m) k = mapLookup m k := by
  induction locs generalizing m with
  | nil => rfl
  | cons l rest ih =>
    rw [List.foldl_cons,
      ih (locStep syms m l) (fun x hx => hk x (List.mem_cons_of_mem _ hx))]
    cases h : resolveSym l.address syms with
    | none => simp [locStep, h]
    | some n =>
      simp [locStep, h, mapLookup_mapInsert,
        Ne.symm (hk l (List.mem_cons_self l rest))]

theorem mapLookup_foldl_of_mem (syms : List Sym) (locs : List Location)
    (m : List (Nat × String)) (l : Location)
    (hl : l ∈ locs) (hids : locs.Pairwise (fun a b => a.id ≠ b.id)) :
    mapLookup (locs.foldl (locStep syms) m) l.id =
      (match resolveSym l.address syms with
       | some n => some n
       | none => mapLookup m l.id) := by
  induction locs generalizing m with
  | nil => cases hl
  | cons l' rest ih =>
    rw [List.pairwise_cons] at hids
    rcases hids with ⟨hhead, htail⟩
    rw [List.foldl_cons]
    rcases List.mem_cons.mp hl with rfl | hmem
    · rw [mapLookup_foldl_of_notMem syms rest (locStep syms m l) l.id
        (fun x hx => Ne.symm (hhead x hx))]
      cases h : resolveSym l.address syms with
      | none => simp [locStep, h]
      | some n => simp [locStep, h, mapLookup_mapInsert]
    · rw [ih (locStep syms m l') hmem htail]
      cases h : resolveSym l.address syms with
      | some n => rfl
      | none =>
        cases h' : resolveSym l'.address syms with
        | none => simp [locStep, h']
        | some n' =>
          simp [locStep, h', mapLookup_mapInsert, Ne.symm (hhead l hmem)]

theorem resolveSym_eq_find (a : Nat) (syms : List Sym) :
    resolveSym a syms =
      (syms.find? (fun s => symContains s a)).map Sym.name := by
  induction syms with
  | nil => rfl
  | cons s rest ih =>
    by_cases h : symContains s a = true
    · simp [resolveSym, h, List.find?_cons_of_pos]
    · have h' : symContains s a = false := by simpa using h
      simp [resolveSym, h', List.find?_cons_of_neg, ih]

theorem symContains_eq_of_no_overflow (s : Sym) (a : Nat)
    (h : s.addr + s.size < 2 ^ 64) :
    symContains s a = decide (s.addr ≤ a ∧ a ≤ s.addr + s.size) := by
  rw [symContains, Nat.mod_eq_of_lt h]
  by_cases h1 : s.addr ≤ a <;> by_cases h2 : a ≤ s.addr + s.size <;>
    simp [h1, h2]

theorem find?_no_overflow (a : Nat) (syms : List Sym)
    (h : ∀ s ∈ syms, s.addr + s.size < 2 ^ 64) :
    syms.find? (fun s => symContains s a) =
      syms.find? (fun s => decide (s.addr ≤ a ∧ a ≤ s.addr + s.size)) := by
  induction syms with
  | nil => rfl
  | cons s rest ih =>
    have hs := symContains_eq_of_no_overflow s a
      (h s (List.mem_cons_self s rest))
    rw [List.find?_cons, List.find?_cons, hs,
      ih (fun t ht => h t (List.mem_cons_of_mem _ ht))]

theorem mapLookup_foldl_isSome (syms : List Sym) (locs : List Location)
    (m : List (Nat × String)) (k : Nat) :
    (mapLookup (locs.foldl (locStep syms) m) k).isSome = true ↔
      (mapLookup m k).isSome = true ∨
      ∃ l, l ∈ locs ∧ l.id = k ∧
        (resolveSym l.address syms).isSome = true := by
  induction locs generalizing m with
  | nil => simp
  | cons l rest ih =>
    rw [List.foldl_cons, ih]
    cases h : resolveSym l.address syms with
    | none =>
      simp only [locStep, h, List.mem_cons]
      constructor
      · rintro (hm | ⟨x, hx, hid, hsome⟩)
        · exact Or.inl hm
        · exact Or.inr ⟨x, Or.inr hx, hid, hsome⟩
      · rintro (hm | ⟨x, (rfl | hx), hid, hsome⟩)
        · exact Or.inl hm
        · rw [h] at hsome; cases hsome
        · exact Or.inr ⟨x, hx, hid, hsome⟩
    | some n =>
      simp only [locStep, h, List.mem_cons, mapLookup_mapInsert]
      by_cases hk : k = l.id
      · constructor
        · intro _
          exact Or.inr ⟨l, Or.inl rfl, hk.symm, by rw [h]; rfl⟩
        · intro _
          left
          simp [hk]
      · constructor
        · rintro (hm | ⟨x, hx, hid, hsome⟩)
          · rw [if_neg hk] at hm
            exact Or.inl hm
          · exact Or.inr ⟨x, Or.inr hx, hid, hsome⟩
        · rintro (hm | ⟨x, (rfl | hx), hid, hsome⟩)
          · rw [if_neg hk]
            exact Or.inl hm
          · exact absurd hid.symm hk
          · exact Or.inr ⟨x, hx, hid, hsome⟩

/-! ### Lemmas about the aggregation fold -/

theorem mapLookup_mapLocations (locs : List Location) (syms : List Sym)
    (l : Location) (hl : l ∈ locs)
    (hids : locs.Pairwise (fun a b => a.id ≠ b.id)) :
    mapLookup (mapLocations locs syms) l.id = resolveSym l.address syms := by
  rw [mapLocations_eq_foldl, mapLookup_foldl_of_mem syms locs [] l hl hids]
  cases resolveSym l.address syms <;> rfl

theorem foldl_addCounter_apply (res : List (Nat × String)) (amt : ℚ)
    (ls : List Location) (tc : Counters) (f : String) :
    (ls.foldl (fun acc l => addCounter acc (lookupOrEmpty res l.id) amt)
        tc) f =
      tc f + (ls.countP (fun l => lookupOrEmpty res l.id == f) : ℚ) * amt := by
  induction ls generalizing tc with
  | nil => simp
  | cons l rest ih =>
    rw [List.foldl_cons, ih, List.countP_cons]
    by_cases h : lookupOrEmpty res l.id = f
    · simp only [addCounter, h, beq_self_eq_true, if_true]
      push_cast
      ring
    · have h' : ¬ (f = lookupOrEmpty res l.id) := fun hf => h hf.symm
      simp only [addCounter, h', if_false]
      have hb : (lookupOrEmpty res l.id == f) = false := by
        simpa using h
      simp [hb]

theorem addCounter_mono (m : Counters) (k : String) (v : ℚ) (hv : 0 ≤ v)
    (f : String) : m f ≤ addCounter m k v f := by
  rw [addCounter]
  by_cases h : f = k
  · simp only [h, if_true]
    linarith
  · simp [h]

theorem processSample_mono (res : List (Nat × String)) (tu tc : Counters)
    (s : Sample) (f : String) :
    tu f ≤ (exceptCounters (processSample res tu tc s)).1 f ∧
    tc f ≤ (exceptCounters (processSample res tu tc s)).2 f := by
  cases hsl : s.location with
  | nil => simp [processSample, hsl, exceptCounters]
  | cons l0 rest =>
    by_cases hv : s.value.length < 2
    · simp [processSample, hsl, hv, exceptCounters]
    · by_cases hneg :
        ((s.value.getD 1 0 : Int) : ℚ) / (nanoToMilliDivisor : ℚ) < 0
      · have hneg' : ((s.value[1]?.getD 0 : Int) : ℚ) /
            (nanoToMilliDivisor : ℚ) < 0 := by simpa using hneg
        simp [processSample, hsl, hv, hneg', exceptCounters]
      · have hneg' : ¬ ((s.value[1]?.getD 0 : Int) : ℚ) /
            (nanoToMilliDivisor : ℚ) < 0 := by simpa using hneg
        have h0 : (0 : ℚ) ≤
            ((s.value.getD 1 0 : Int) : ℚ) / (nanoToMilliDivisor : ℚ) :=
          le_of_not_lt hneg
        have heq : processSample res tu tc s =
            .ok (addCounter tu (lookupOrEmpty res l0.id)
                   (((s.value.getD 1 0 : Int) : ℚ) /
                     (nanoToMilliDivisor : ℚ)),
                 s.location.foldl
                   (fun acc l => addCounter acc (lookupOrEmpty res l.id)
                     (((s.value.getD 1 0 : Int) : ℚ) /
                       (nanoToMilliDivisor : ℚ))) tc) := by
          simp [processSample, hsl, hv, hneg']
        rw [heq]
        refine ⟨addCounter_mono _ _ _ h0 f, ?_⟩
        simp only [exceptCounters]
        rw [foldl_addCounter_apply]
        have hm : (0 : ℚ) ≤
            (s.location.countP (fun l => lookupOrEmpty res l.id == f) : ℚ) *
              (((s.value.getD 1 0 : Int) : ℚ) / (nanoToMilliDivisor : ℚ)) :=
          mul_nonneg (Nat.cast_nonneg _) h0
        linarith

theorem foldSamples_mono (res : List (Nat × String)) (samples : List Sample)
    (tu tc : Counters) (f : String) :
    tu f ≤ (exceptCounters (foldSamples res tu tc samples)).1 f ∧
    tc f ≤ (exceptCounters (foldSamples res tu tc samples)).2 f := by
  induction samples generalizing tu tc with
  | nil => exact ⟨le_refl _, le_refl _⟩
  | cons s rest ih =>
    have h1 := processSample_mono res tu tc s f
    cases hps : processSample res tu tc s with
    | ok x =>
      rcases x with ⟨tu1, tc1⟩
      rw [hps] at h1
      simp only [exceptCounters] at h1
      have h2 := ih tu1 tc1
      simp only [foldSamples, hps]
      exact ⟨le_trans h1.1 h2.1, le_trans h1.2 h2.2⟩
    | error e =>
      rw [hps] at h1
      simp only [exceptCounters] at h1
      simp only [foldSamples, hps, exceptCounters]
      exact h1

theorem processSample_ok (res : List (Nat × String)) (tu tc : Counters)
    (s : Sample) (hamt : sampleValid s = true → 0 ≤ sampleAmt s) :
    ∃ tu' tc', processSample res tu tc s = .ok (tu', tc') ∧
      (∀ f, tu' f = tu f + selfContrib res f s) ∧
      (∀ f, tc' f = tc f + cumContrib res f s) := by
  cases hsl : s.location with
  | nil =>
    refine ⟨tu, tc, by simp [processSample, hsl], ?_, ?_⟩
    · intro f
      simp [selfContrib, hsl]
    · intro f
      simp [cumContrib, sampleValid, hsl]
  | cons l0 rest =>
    by_cases hv : s.value.length < 2
    · have hval : sampleValid s = false := by
        simp only [sampleValid, hsl, List.isEmpty_cons, Bool.not_false,
          Bool.true_and, decide_eq_false_iff_not]
        omega
      refine ⟨tu, tc, by simp [processSample, hsl, hv], ?_, ?_⟩
      · intro f
        simp [selfContrib, hsl, hval]
      · intro f
        simp [cumContrib, hval]
    · have hval : sampleValid s = true := by
        simp only [sampleValid, hsl, List.isEmpty_cons, Bool.not_false,
          Bool.true_and, decide_eq_true_eq]
        omega
      have h0 : 0 ≤ sampleAmt s := hamt hval
      have hneg : ¬ (((s.value.getD 1 0 : Int) : ℚ) /
          (nanoToMilliDivisor : ℚ) < 0) := not_lt.mpr h0
      have hneg' : ¬ ((s.value[1]?.getD 0 : Int) : ℚ) /
          (nanoToMilliDivisor : ℚ) < 0 := by simpa using hneg
      refine ⟨addCounter tu (lookupOrEmpty res l0.id) (sampleAmt s),
        s.location.foldl
          (fun acc l => addCounter acc (lookupOrEmpty res l.id)
            (sampleAmt s)) tc, ?_, ?_, ?_⟩
      · simp [processSample, hsl, hv, hneg', sampleAmt]
      · intro f
        by_cases hf : lookupOrEmpty res l0.id = f
        · simp [addCounter, selfContrib, hsl, hval, hf]
        · have hf' : ¬ (f = lookupOrEmpty res l0.id) := fun h => hf h.symm
          simp [addCounter, selfContrib, hsl, hval, hf, hf']
      · intro f
        rw [foldl_addCounter_apply]
        simp [cumContrib, hval]

theorem foldSamples_ok (res : List (Nat × String)) (samples : List Sample)
    (hamt : ∀ s ∈ samples, sampleValid s = true → 0 ≤ sampleAmt s)
    (tu tc : Counters) :
    ∃ tu' tc', foldSamples res tu tc samples = .ok (tu', tc') ∧
      (∀ f, tu' f = tu f + (samples.map (selfContrib res f)).sum) ∧
      (∀ f, tc' f = tc f + (samples.map (cumContrib res f)).sum) := by
  induction samples generalizing tu tc with
  | nil => exact ⟨tu, tc, rfl, by simp, by simp⟩
  | cons s rest ih =>
    rcases processSample_ok res tu tc s
        (hamt s (List.mem_cons_self s rest)) with
      ⟨tu1, tc1, hps, htu1, htc1⟩
    rcases ih (fun t ht => hamt t (List.mem_cons_of_mem _ ht)) tu1 tc1 with
      ⟨tu2, tc2, hfs, htu2, htc2⟩
    refine ⟨tu2, tc2, ?_, ?_, ?_⟩
    · simp only [foldSamples, hps]
      exact hfs
    · intro f
      rw [htu2 f, htu1 f, List.map_cons, List.sum_cons]
      ring
    · intro f
      rw [htc2 f, htc1 f, List.map_cons, List.sum_cons]
      ring

theorem sampleAmt_nonneg (s : Sample) (h : 0 ≤ s.value.getD 1 0) :
    0 ≤ sampleAmt s := by
  rw [sampleAmt]
  apply div_nonneg
  · exact_mod_cast h
  · positivity

theorem applyOp_mono (c : CollectorState) (op : Op) (f : String) :
    c.timeUsed f ≤ (applyOp c op).timeUsed f ∧
    c.timeUsedCum f ≤ (applyOp c op).timeUsedCum f ∧
    c.started ≤ (applyOp c op).started ∧
    c.stopped ≤ (applyOp c op).stopped := by
  cases op with
  | start =>
    by_cases h : c.running = true
    · have : applyOp c .start = c := by simp [applyOp, start, h]
      rw [this]
      exact ⟨le_refl _, le_refl _, le_refl _, le_refl _⟩
    · have h' : c.running = false := by simpa using h
      have : applyOp c .start =
          { c with running := true, rate := cpuProfileRate,
                   started := c.started + 1 } := by
        simp [applyOp, start, h']
      rw [this]
      exact ⟨le_refl _, le_refl _, Nat.le_succ _, le_refl _⟩
  | stop =>
    by_cases h : c.running = true
    · have : applyOp c .stop =
          { c with running := false, rate := 0,
                   stopped := c.stopped + 1 } := by
        simp [applyOp, stop, h]
      rw [this]
      exact ⟨le_refl _, le_refl _, le_refl _, Nat.le_succ _⟩
    · have h' : c.running = false := by simpa using h
      have : applyOp c .stop = c := by simp [applyOp, stop, h']
      rw [this]
      exact ⟨le_refl _, le_refl _, le_refl _, le_refl _⟩
  | scrape pr =>
    by_cases h : c.running = true
    · cases pr with
      | error e =>
        have : applyOp c (.scrape (.error e)) = { c with rate := 0 } := by
          simp [applyOp, collect, h]
        rw [this]
        exact ⟨le_refl _, le_refl _, le_refl _, le_refl _⟩
      | ok p =>
        have hm := foldSamples_mono (mapLocations p.location c.symbols)
          p.sample c.timeUsed c.timeUsedCum f
        rcases hfs : foldSamples (mapLocations p.location c.symbols)
            c.timeUsed c.timeUsedCum p.sample with e | tutc
        · rcases e with ⟨tu, tc⟩
          have happ : applyOp c (.scrape (.ok p)) =
              { c with rate := 0, timeUsed := tu, timeUsedCum := tc } := by
            simp [applyOp, collect, h, hfs]
          rw [hfs] at hm
          simp only [exceptCounters] at hm
          rw [happ]
          exact ⟨hm.1, hm.2, le_refl _, le_refl _⟩
        · rcases tutc with ⟨tu, tc⟩
          have happ : applyOp c (.scrape (.ok p)) =
              { c with rate := cpuProfileRate, timeUsed := tu,
                       timeUsedCum := tc } := by
            simp [applyOp, collect, h, hfs]
          rw [hfs] at hm
          simp only [exceptCounters] at hm
          rw [happ]
          exact ⟨hm.1, hm.2, le_refl _, le_refl _⟩
    · have h' : c.running = false := by simpa using h
      have : applyOp c (.scrape pr) = c := by
        simp [applyOp, collect, h']
      rw [this]
      exact ⟨le_refl _, le_refl _, le_refl _, le_refl _⟩

/-! ### Claim theorems -/

/-- C4: a scrape in the Stopped state performs no draining, decoding,
resolution, or aggregation — the collector state (both time-counter maps
and the sampling rate included) is returned unchanged, whatever the
parse outcome would have been — and still publishes all four metric
families. -/
theorem C4_stopped_scrape_publishes_unchanged (c : CollectorState)
    (pr : Except Unit Profile) (h : c.running = false) :
    collect c pr = .ok (c,
      [.timeUsed c.timeUsed, .timeUsedCum c.timeUsedCum,
       .started c.started, .stopped c.stopped]) := by
  simp [collect, h, publish]

/-- C4 witness: the stopped fresh collector, scraped with a decode error
available in the buffer, is returned unchanged with all four families. -/
theorem C4_witness :
    collect cStopped (.error ()) = .ok (cStopped,
      [.timeUsed cStopped.timeUsed, .timeUsedCum cStopped.timeUsedCum,
       .started cStopped.started, .stopped cStopped.stopped]) :=
  C4_stopped_scrape_publishes_unchanged cStopped (.error ()) rfl

/-- C5: `Start` is idempotent and `Stop` is symmetric: `Start` on a
running collector changes nothing; on a stopped one it sets the rate to
`cpuProfileRate`, sets `running`, and increments `started` by one;
symmetrically for `Stop`; and two `Start` calls followed by one `Stop`
from the stopped state give exactly one `started` and one `stopped`
increment. -/
theorem C5_start_stop_idempotent (c : CollectorState) :
    (c.running = true → start c = c) ∧
    (c.running = false → start c =
      { c with running := true, rate := cpuProfileRate,
               started := c.started + 1 }) ∧
    (c.running = false → stop c = c) ∧
    (c.running = true → stop c =
      { c with running := false, rate := 0, stopped := c.stopped + 1 }) ∧
    (c.running = false →
      (stop (start (start c))).started = c.started + 1 ∧
      (stop (start (start c))).stopped = c.stopped + 1) := by
  refine ⟨?_, ?_, ?_, ?_, ?_⟩ <;> intro h <;> simp [start, stop, h]

/-- C5 witness: from the fresh stopped collector, `Start; Start; Stop`
yields `started = 1` and `stopped = 1`. -/
theorem C5_witness :
    (stop (start (start cStopped))).started = 1 ∧
    (stop (start (start cStopped))).stopped = 1 :=
  (C5_start_stop_idempotent cStopped).2.2.2.2 rfl

/-- C7: a decode failure during a Running scrape aborts the scrape: the
state at the abort point differs from the pre-scrape state only in the
rate (set to `0` by the pause), so both time-counter maps and the
`started`/`stopped` counters are unchanged and no resolution or
aggregation has happened. -/
theorem C7_decode_failure_aborts (c : CollectorState)
    (h : c.running = true) :
    collect c (.error ()) = .error { c with rate := 0 } := by
  simp [collect, h]

/-- C7 witness: the running collector aborts on a decode error with only
its rate zeroed. -/
theorem C7_witness :
    collect cRunning (.error ()) = .error { cRunning with rate := 0 } :=
  C7_decode_failure_aborts cRunning rfl

/-- C8 counterexample: after a Running scrape whose decode step fails,
the collector is still `running = true` but the sampling rate is `0`,
not `cpuProfileRate` — the rate/state pair is inconsistent at the abort
point, contradicting the claim for that very case. -/
theorem C8_counterexample :
    ¬ (((applyOp cRunning (.scrape (.error ()))).running = true) ↔
       ((applyOp cRunning (.scrape (.error ()))).rate = cpuProfileRate)) := by
  decide

/-- C8 (amended): the rate/state pair is consistent after every `Start`,
every `Stop`, and every scrape that completes normally; a scrape aborted
by a decode failure instead ends with the rate forced to `0` while
`running` is left unchanged (so a running collector is observed with
sampling disabled there). -/
theorem C8_amended_rate_state_consistency (c : CollectorState)
    (h : rateConsistent c) :
    rateConsistent (start c) ∧ rateConsistent (stop c) ∧
    (∀ pr c' pub, collect c pr = .ok (c', pub) → rateConsistent c') ∧
    (∀ c'', collect c (.error ()) = .error c'' →
      c''.rate = 0 ∧ c''.running = c.running) := by
  by_cases hr : c.running = true
  · refine ⟨?_, ?_, ?_, ?_⟩
    · simpa [start, hr] using h
    · simp [rateConsistent, stop, hr]
    · intro pr c' pub hcol
      cases pr with
      | error e => simp [collect, hr] at hcol
      | ok p =>
        rw [collect] at hcol
        simp only [hr, if_true] at hcol
        rcases hfs : foldSamples (mapLocations p.location c.symbols)
            c.timeUsed c.timeUsedCum p.sample with e | tutc
        · simp [hfs] at hcol
        · rcases tutc with ⟨tu, tc⟩
          simp [hfs] at hcol
          rcases hcol with ⟨hc', -⟩
          subst hc'
          exact ⟨fun _ => rfl, fun hfalse => by simp [hr] at hfalse⟩
    · intro c'' hcol
      simp [collect, hr] at hcol
      subst hcol
      simp [hr]
  · have hr' : c.running = false := by simpa using hr
    refine ⟨?_, ?_, ?_, ?_⟩
    · simp [rateConsistent, start, hr']
    · simpa [stop, hr'] using h
    · intro pr c' pub hcol
      simp [collect, hr'] at hcol
      rcases hcol with ⟨hc', -⟩
      subst hc'
      exact h
    · intro c'' hcol
      simp [collect, hr'] at hcol

/-- C8 witness (for the amended claim): stopping the running collector
leaves the rate at `0`, consistent with `running = false`. -/
theorem C8_witness : (stop cRunning).rate = 0 :=
  ((C8_amended_rate_state_consistency cRunning
      ⟨fun _ => rfl, fun h => absurd h (by decide)⟩).2.1).2 rfl

/-- C2: for distinct location IDs, the resolution map assigns each
location the name of the first symbol (in table order) whose range
contains its address, containment being `startAddress ≤ address ≤
startAddress + size` with an inclusive upper bound; `find?` returns the
first match, so no later symbol is considered after it.  The hypothesis
`hnof` states that no symbol's `startAddress + size` wraps around
`uint64`, so the wrapped comparison of the code coincides with the
mathematical one. -/
theorem C2_first_match_resolution (locs : List Location) (syms : List Sym)
    (l : Location) (hl : l ∈ locs)
    (hids : locs.Pairwise (fun a b => a.id ≠ b.id))
    (hnof : ∀ s ∈ syms, s.addr + s.size < 2 ^ 64) :
    mapLookup (mapLocations locs syms) l.id =
      (syms.find? (fun s =>
        decide (s.addr ≤ l.address ∧ l.address ≤ s.addr + s.size))).map
        Sym.name := by
  rw [mapLocations_eq_foldl, mapLookup_foldl_of_mem syms locs [] l hl hids,
    ← find?_no_overflow l.address syms hnof, ← resolveSym_eq_find]
  cases resolveSym l.address syms <;> rfl

/-- C2 witness: address `120` of location `1` resolves, against the
table `[{f, 100, 50}]`, to the first (and only) containing symbol. -/
theorem C2_witness :
    mapLookup (mapLocations [⟨1, 120⟩] someSymbols) 1 =
      (someSymbols.find? (fun s =>
        decide (s.addr ≤ 120 ∧ 120 ≤ s.addr + s.size))).map Sym.name :=
  C2_first_match_resolution [⟨1, 120⟩] someSymbols ⟨1, 120⟩ (by decide)
    (by decide) (by decide)

/-- C9 counterexample: with the inclusive upper bound, two back-to-back
symbols `{f, 100, 50}` and `{g, 150, 50}` both contain address `150`, so
an address can fall in more than one symbol's range — the claimed
at-most-one invariant fails. -/
theorem C9_counterexample :
    ¬ (([⟨"f", 100, 50⟩, ⟨"g", 150, 50⟩] : List Sym).countP
        (fun s => symContains s 150) ≤ 1) := by
  decide

/-- C9 (amended): an address may fall within more than one symbol's
inclusive range (adjacent ranges share their boundary address); the
matching rule nevertheless selects at most one symbol for any address —
the first matching one in table order, every earlier symbol failing the
range test — so resolution is well defined. -/
theorem C9_amended_first_match_only (a : Nat) (syms : List Sym) :
    (resolveSym a syms = none ∧ ∀ s ∈ syms, symContains s a = false) ∨
    (∃ pre s post, syms = pre ++ s :: post ∧ symContains s a = true ∧
      (∀ t ∈ pre, symContains t a = false) ∧
      resolveSym a syms = some s.name) := by
  induction syms with
  | nil => exact Or.inl ⟨rfl, by simp⟩
  | cons s rest ih =>
    by_cases h : symContains s a = true
    · exact Or.inr ⟨[], s, rest, rfl, h, by simp, by simp [resolveSym, h]⟩
    · have h' : symContains s a = false := by simpa using h
      rcases ih with ⟨hres, hall⟩ | ⟨pre, s', post, heq, hs', hpre, hres⟩
      · refine Or.inl ⟨by simp [resolveSym, h', hres], ?_⟩
        intro t ht
        rcases List.mem_cons.mp ht with rfl | ht'
        · exact h'
        · exact hall t ht'
      · refine Or.inr ⟨s :: pre, s', post, by rw [heq]; rfl, hs', ?_,
          by simp [resolveSym, h', hres]⟩
        intro t ht
        rcases List.mem_cons.mp ht with rfl | ht'
        · exact h'
        · exact hpre t ht'

/-- C10: the resolution map has an entry under an ID exactly when some
location with that ID matched a symbol; an unmatched location gets no
entry, and the unknown-function label is the empty string produced by
looking up the missing key with the map's zero-value default. -/
theorem C10_entries_iff_matched (locs : List Location) (syms : List Sym)
    (k : Nat) :
    ((mapLookup (mapLocations locs syms) k).isSome = true ↔
      ∃ l, l ∈ locs ∧ l.id = k ∧
        (resolveSym l.address syms).isSome = true) ∧
    (mapLookup (mapLocations locs syms) k = none →
      lookupOrEmpty (mapLocations locs syms) k = "") := by
  constructor
  · rw [mapLocations_eq_foldl, mapLookup_foldl_isSome]
    simp [mapLookup]
  · intro h
    rw [lookupOrEmpty, h]
    rfl

/-- C10 witness: the out-of-range location `{1, 500}` gets no entry, and
its lookup yields the empty string. -/
theorem C10_witness :
    lookupOrEmpty (mapLocations [⟨1, 500⟩] someSymbols) 1 = "" :=
  (C10_entries_iff_matched [⟨1, 500⟩] someSymbols 1).2 (by decide)

/-- C1: a Running scrape succeeds and updates, for every function label
`f`, the self-time counter by the sum over samples of `values[1] /
1,000,000` for each valid sample whose leaf frame resolves to `f`, and
the cumulative counter by that amount once per frame occurrence
resolving to `f` (`countP` counts a recursive function once per
occurrence); samples with an empty stack or fewer than 2 values
contribute `0` to both sums.  (`hamt` says no valid sample carries a
negative nanosecond value, which would abort the counter update.) -/
theorem C1_sample_attribution (c : CollectorState) (p : Profile)
    (hrun : c.running = true)
    (hamt : ∀ s ∈ p.sample, sampleValid s = true → 0 ≤ sampleAmt s) :
    ∃ c' pub, collect c (.ok p) = .ok (c', pub) ∧
      (∀ f, c'.timeUsed f = c.timeUsed f +
        (p.sample.map
          (selfContrib (mapLocations p.location c.symbols) f)).sum) ∧
      (∀ f, c'.timeUsedCum f = c.timeUsedCum f +
        (p.sample.map
          (cumContrib (mapLocations p.location c.symbols) f)).sum) := by
  rcases foldSamples_ok (mapLocations p.location c.symbols) p.sample hamt
      c.timeUsed c.timeUsedCum with ⟨tu, tc, hfs, htu, htc⟩
  refine ⟨{ c with
      rate := cpuProfileRate, timeUsed := tu, timeUsedCum := tc },
    publish { c with rate := 0, timeUsed := tu, timeUsedCum := tc },
    ?_, htu, htc⟩
  simp [collect, hrun, hfs, publish]

/-- C1 witness: the spec's scenario — table `[{f, 100, 50}]`, one sample
with stack `[{1, 120}]` and values `[1, 1000000000]` — scrapes
successfully with the stated counter sums. -/
theorem C1_witness :
    ∃ c' pub, collect cRunning (.ok pSpec) = .ok (c', pub) ∧
      (∀ f, c'.timeUsed f = cRunning.timeUsed f +
        (pSpec.sample.map
          (selfContrib (mapLocations pSpec.location cRunning.symbols)
            f)).sum) ∧
      (∀ f, c'.timeUsedCum f = cRunning.timeUsedCum f +
        (pSpec.sample.map
          (cumContrib (mapLocations pSpec.location cRunning.symbols)
            f)).sum) :=
  C1_sample_attribution cRunning pSpec rfl (by
    intro s hs _
    apply sampleAmt_nonneg
    obtain rfl : s = ⟨[⟨1, 120⟩], [1, 1000000000]⟩ := by
      simpa [pSpec] using hs
    decide)

/-- C3: a location whose address no symbol contains resolves to the
empty string, and a valid sample whose leaf frame is such a location is
not dropped and raises no error: the scrape succeeds, the sample's full
millisecond amount is its self-time contribution to the `""` bucket,
every unresolved frame likewise resolves to `""` for the cumulative
counter, and the `""` entries of both counters receive the summed
contributions. -/
theorem C3_unknown_address_counted (c : CollectorState) (p : Profile)
    (hrun : c.running = true)
    (hamt : ∀ s ∈ p.sample, sampleValid s = true → 0 ≤ sampleAmt s)
    (hids : p.location.Pairwise (fun a b => a.id ≠ b.id))
    (s : Sample) (hs : s ∈ p.sample)
    (l0 : Location) (rest : List Location)
    (hstack : s.location = l0 :: rest)
    (hvals : 2 ≤ s.value.length)
    (hsub : ∀ l ∈ s.location, l ∈ p.location)
    (hunres : resolveSym l0.address c.symbols = none) :
    lookupOrEmpty (mapLocations p.location c.symbols) l0.id = "" ∧
    selfContrib (mapLocations p.location c.symbols) "" s = sampleAmt s ∧
    (∀ l ∈ s.location, resolveSym l.address c.symbols = none →
      lookupOrEmpty (mapLocations p.location c.symbols) l.id = "") ∧
    ∃ c' pub, collect c (.ok p) = .ok (c', pub) ∧
      c'.timeUsed "" = c.timeUsed "" +
        (p.sample.map
          (selfContrib (mapLocations p.location c.symbols) "")).sum ∧
      c'.timeUsedCum "" = c.timeUsedCum "" +
        (p.sample.map
          (cumContrib (mapLocations p.location c.symbols) "")).sum := by
  have hlook : ∀ l ∈ p.location, resolveSym l.address c.symbols = none →
      lookupOrEmpty (mapLocations p.location c.symbols) l.id = "" := by
    intro l hlm hnone
    rw [lookupOrEmpty,
      mapLookup_mapLocations p.location c.symbols l hlm hids, hnone]
    rfl
  have hl0mem : l0 ∈ p.location :=
    hsub l0 (by rw [hstack]; exact List.mem_cons_self _ _)
  have hl0 : lookupOrEmpty (mapLocations p.location c.symbols) l0.id = "" :=
    hlook l0 hl0mem hunres
  have hval : sampleValid s = true := by
    simp only [sampleValid, hstack, List.isEmpty_cons, Bool.not_false,
      Bool.true_and, decide_eq_true_eq]
    omega
  refine ⟨hl0, ?_, fun l hls hnone => hlook l (hsub l hls) hnone, ?_⟩
  · simp [selfContrib, hstack, hval, hl0]
  · rcases foldSamples_ok (mapLocations p.location c.symbols) p.sample hamt
        c.timeUsed c.timeUsedCum with ⟨tu, tc, hfs, htu, htc⟩
    refine ⟨{ c with
        rate := cpuProfileRate, timeUsed := tu, timeUsedCum := tc },
      publish { c with rate := 0, timeUsed := tu, timeUsedCum := tc },
      ?_, htu "", htc ""⟩
    simp [collect, hrun, hfs, publish]

/-- C3 witness: the spec's out-of-range scenario — address `500` outside
the only symbol's range — resolves to `""`, is fully credited there, and
the scrape succeeds. -/
theorem C3_witness :
    lookupOrEmpty (mapLocations pUnknown.location cRunning.symbols)
      (1 : Nat) = "" ∧
    selfContrib (mapLocations pUnknown.location cRunning.symbols) ""
      ⟨[⟨1, 500⟩], [1, 500000000]⟩ =
      sampleAmt ⟨[⟨1, 500⟩], [1, 500000000]⟩ := by
  have h := C3_unknown_address_counted cRunning pUnknown rfl (by
      intro s hs _
      apply sampleAmt_nonneg
      obtain rfl : s = ⟨[⟨1, 500⟩], [1, 500000000]⟩ := by
        simpa [pUnknown] using hs
      decide)
    (by decide) ⟨[⟨1, 500⟩], [1, 500000000]⟩ (by decide) ⟨1, 500⟩ []
    rfl (by decide) (by decide) (by decide)
  exact ⟨h.1, h.2.1⟩

/-- C6: all four counters — both per-function time-counter maps at every
label, `started`, and `stopped` — are monotonically non-decreasing
across every sequence of Start, Stop, and Scrape operations, including
scrapes that abort on a decode failure or a negative counter increment. -/
theorem C6_counters_monotone (c : CollectorState) (ops : List Op)
    (f : String) :
    c.timeUsed f ≤ (ops.foldl applyOp c).timeUsed f ∧
    c.timeUsedCum f ≤ (ops.foldl applyOp c).timeUsedCum f ∧
    c.started ≤ (ops.foldl applyOp c).started ∧
    c.stopped ≤ (ops.foldl applyOp c).stopped := by
  induction ops generalizing c with
  | nil => exact ⟨le_refl _, le_refl _, le_refl _, le_refl _⟩
  | cons op rest ih =>
    have h1 := applyOp_mono c op f
    have h2 := ih (applyOp c op)
    rw [List.foldl_cons]
    exact ⟨le_trans h1.1 h2.1, le_trans h1.2.1 h2.2.1,
      le_trans h1.2.2.1 h2.2.2.1, le_trans h1.2.2.2 h2.2.2.2⟩

end Pprofetheus
